import Mathlib

/-!
Verification of the adaptive ramp-and-settle controller of `classes.py`:
`ramp_scan` (setpoint sequencing), `_per_step` (per-step orchestration with a
dynamic timeout) and `await_in_band` (the in-band polling waiter).

Real numbers of the source are modelled as rationals.  Time is idealised: device
reads are instantaneous and time advances only at the explicit sleep points, so
the elapsed time `time.time() - t0` seen at the k-th sample of the waiter is
`k * dwell`.  Generator suspension is irrelevant to the properties below and is
not modelled; the cooperative plan is a sequence of actions.
-/

set_option allowUnsafeReducibility true in
attribute [semireducible] Rat.mul Rat.add Rat.sub Rat.div Rat.neg Rat.inv Rat.divInt Rat.normalize

namespace Epics

/-- Python truncating conversion of a rational to an integer (the builtin `int`
applied to a float): rounding toward zero. -/
def pyint (q : ℚ) : ℤ := q.num.tdiv q.den

/-- Number of consecutive in-band samples required by `await_in_band`
(source line 113: `need = max(1, int(stable_time/dwell))`). -/
def needOf (stable_time dwell : ℚ) : ℕ := (max 1 (pyint (stable_time / dwell))).toNat

/-- Result of the in-band waiter: success after a number of samples together with
the elapsed polling time, or the timeout error of the source (a `TimeoutError`
whose message carries the tolerance and the target), or fuel exhaustion of the
model. -/
inductive AwaitResult where
  | success (samples : ℕ) (elapsed : ℚ)
  | timeout (tol target : ℚ) (samples : ℕ) (elapsed : ℚ)
  | outOfFuel
deriving DecidableEq

/-- The polling loop of `await_in_band` (source lines 115 to 121).  `k` counts
completed dwell sleeps, so `time.time() - t0` at the current sample is
`k * dwell`; `ok` is the consecutive in-band counter.  Each iteration reads the
readback (`read k`), updates the counter (`ok = ok+1 if err <= tol else 0`),
returns on `ok >= need`, raises on `time.time() - t0 > max_time`, and otherwise
sleeps for `dwell` and repeats.  `fuel` bounds the iterations of the model. -/
def awaitFrom (read : ℕ → ℚ) (target tol dwell max_time : ℚ) (need : ℕ) :
    ℕ → ℕ → ℕ → AwaitResult
  | 0, _, _ => .outOfFuel
  | fuel + 1, k, ok =>
    let ok' : ℕ := if |read k - target| ≤ tol then ok + 1 else 0
    if need ≤ ok' then .success (k + 1) ((k : ℚ) * dwell)
    else if max_time < (k : ℚ) * dwell then .timeout tol target (k + 1) ((k : ℚ) * dwell)
    else awaitFrom read target tol dwell max_time need fuel (k + 1) ok'

/-- Default tolerance of `await_in_band` (source line 111). -/
def await_default_tol : ℚ := 2/100

/-- Default dwell of `await_in_band` (source line 111). -/
def await_default_dwell : ℚ := 1/10

/-- Default stability window of `await_in_band` (source line 111). -/
def await_default_stable_time : ℚ := 4/10

/-- Default maximal wait of `await_in_band` (source line 111). -/
def await_default_max_time : ℚ := 10

/-- The in-band waiter `await_in_band`: polls `read` until `need` consecutive
samples lie within `tol` of `target`, or raises a timeout once the elapsed time
exceeds `max_time`. -/
def await_in_band (read : ℕ → ℚ) (target tol dwell stable_time max_time : ℚ)
    (fuel : ℕ) : AwaitResult :=
  awaitFrom read target tol dwell max_time (needOf stable_time dwell) fuel 0 0

/-- Observable behaviour of the power supply during one step: the result of the
slew-rate read (`none` models a raised exception), and the successive readback
values returned by `rdCur.get()`.  Index 0 is the read of `last` in `_per_step`;
the waiter's samples follow at indices 1, 2, and so on. -/
structure Device where
  slewRead : Option ℚ
  readback : ℕ → ℚ

/-- Slew value actually used by `_per_step` (source lines 127 to 132): the device
reading when available and positive, otherwise the fallback 0.1. -/
def effectiveSlew : Option ℚ → ℚ
  | none => 1/10
  | some s => if s ≤ 0 then 1/10 else s

/-- Dynamic timeout of `_per_step` (source line 135):
`dyn_to = base_timeout + abs(step - last)/slew + 2.0`. -/
def dynTimeout (base_timeout target last slew : ℚ) : ℚ :=
  base_timeout + |target - last| / slew + 2

/-- Plan-level actions issued by the scan, in order.  The `awaitBand` action
records the invocation of `await_in_band` together with the arguments passed to
it; the waiter's internal polling is modelled by `awaitFrom`. -/
inductive Action where
  | powerOn
  | sleepPre (t : ℚ)
  | movePoint (x : ℚ)
  | readSlew
  | readCur
  | awaitBand (tol target dwell stable_time max_time : ℚ)
  | sleepHold (t : ℚ)
  | trigger
deriving DecidableEq

/-- Error escaping a step: the waiter's timeout, carrying the tolerance and the
target, or fuel exhaustion of the model. -/
inductive StepErr where
  | timeoutErr (tol target : ℚ)
  | outOfFuel
deriving DecidableEq

/-- Outcome of one `_per_step` invocation: the actions performed and the error
that escaped it, if any. -/
structure StepOutcome where
  trace : List Action
  err : Option StepErr
deriving DecidableEq

/-- One step of the scan, `_per_step` (source lines 123 to 140): sleep
`pre_wait_s`, move to the target, read the slew rate (with fallback), read the
last readback, compute the dynamic timeout, invoke the waiter with `tol`, the
dynamic timeout as `max_time`, and the waiter's own default `dwell` and
`stable_time` (source line 137 passes only `tol` and `max_time`); on success
sleep `hold_s` and trigger the measurement, on timeout stop, letting the error
propagate. -/
def perStep (dev : Device) (target pre_wait_s hold_s tol base_timeout : ℚ)
    (fuel : ℕ) : StepOutcome :=
  let slew := effectiveSlew dev.slewRead
  let last := dev.readback 0
  let dyn_to := dynTimeout base_timeout target last slew
  let pre : List Action :=
    [.sleepPre pre_wait_s, .movePoint target, .readSlew, .readCur,
     .awaitBand tol target await_default_dwell await_default_stable_time dyn_to]
  match await_in_band (fun k => dev.readback (k + 1)) target tol
      await_default_dwell await_default_stable_time dyn_to fuel with
  | .success _ _ => ⟨pre ++ [.sleepHold hold_s, .trigger], none⟩
  | .timeout t g _ _ => ⟨pre, some (.timeoutErr t g)⟩
  | .outOfFuel => ⟨pre, some .outOfFuel⟩

/-- The per-step loop of the scan plan: run `_per_step` on each remaining
setpoint (the device behaviour of the i-th step is `devs i`); a step error stops
the scan and propagates unchanged. -/
def runScanFrom (devs : ℕ → Device) (pre_wait_s hold_s tol base_timeout : ℚ)
    (fuel : ℕ) : List ℚ → ℕ → List Action × Option StepErr
  | [], _ => ([], none)
  | t :: rest, i =>
    let s := perStep (devs i) t pre_wait_s hold_s tol base_timeout fuel
    match s.err with
    | some e => (s.trace, some e)
    | none =>
      let r := runScanFrom devs pre_wait_s hold_s tol base_timeout fuel rest (i + 1)
      (s.trace ++ r.1, r.2)

/-- Number of scan points (source line 96):
`npts = int(abs((stop-start)/step)) + 1`. -/
def npts (start stop step : ℚ) : ℕ := (pyint |(stop - start) / step|).toNat + 1

/-- Setpoints issued by the underlying `scan` plan for `n` points: `n` evenly
spaced values from `a` to `b` inclusive (numpy linspace semantics of the bluesky
library plan called on source line 108). -/
def linspace (a b : ℚ) (n : ℕ) : List ℚ :=
  if n ≤ 1 then [a]
  else (List.range n).map (fun i : ℕ => a + (b - a) * (i : ℚ) / ((n : ℚ) - 1))

/-- The setpoint sequence of `ramp_scan`. -/
def setpointsOf (start stop step : ℚ) : List ℚ :=
  linspace start stop (npts start stop step)

/-- Overall scan outcome: `configError` when computing `npts` raises (a zero step
gives a ZeroDivisionError before any device I/O), otherwise the trace and the
final error of the run. -/
inductive ScanOutcome where
  | configError
  | ran (trace : List Action) (err : Option StepErr)
deriving DecidableEq

/-- The scan entry point `ramp_scan` (source lines 95 to 108): compute `npts`
(failing on a zero step before any device I/O), power the supply on, then scan
the setpoints with `_per_step`. -/
def ramp_scan (devs : ℕ → Device)
    (start stop step pre_wait_s hold_s tol base_timeout : ℚ) (fuel : ℕ) :
    ScanOutcome :=
  if step = 0 then .configError
  else
    let r := runScanFrom devs pre_wait_s hold_s tol base_timeout fuel
      (setpointsOf start stop step) 0
    .ran (.powerOn :: r.1) r.2

/-- Default pre-step wait of `ramp_scan` (source line 95). -/
def ramp_default_pre_wait_s : ℚ := 3

/-- Default hold of `ramp_scan` (source line 95). -/
def ramp_default_hold_s : ℚ := 2

/-- Default tolerance of `ramp_scan` (source line 95). -/
def ramp_default_tol : ℚ := 2/100

/-- Default base timeout of `ramp_scan` (source line 95). -/
def ramp_default_base_timeout : ℚ := 5

/-- Required-samples formula asserted by the specification, kept for comparison
with `needOf`: `max(1, ceil(stable_time / dwell))`. -/
def needClaimed (stable_time dwell : ℚ) : ℕ := (max 1 ⌈stable_time / dwell⌉).toNat



/-- Truncation agrees with the floor on nonnegative rationals. -/
theorem pyint_eq_floor {q : ℚ} (h : 0 ≤ q) : pyint q = ⌊q⌋ := by
  rw [pyint, Int.tdiv_eq_ediv (Rat.num_nonneg.mpr h) (by positivity), Rat.floor_def]

/-- At least one in-band sample is always required. -/
theorem needOf_pos (stable_time dwell : ℚ) : 1 ≤ needOf stable_time dwell := by
  have h : (1 : ℤ) ≤ max 1 (pyint (stable_time / dwell)) := le_max_left _ _
  simp only [needOf]
  exact Int.toNat_le_toNat h

/-- The effective slew rate is strictly positive. -/
theorem effectiveSlew_pos (r : Option ℚ) : 0 < effectiveSlew r := by
  cases r with
  | none => norm_num [effectiveSlew]
  | some s =>
    by_cases hs : s ≤ 0
    · simp only [effectiveSlew, if_pos hs]; norm_num
    · simp only [effectiveSlew, if_neg hs]; exact lt_of_not_le hs

/-- C10: the division in the dynamic-timeout computation is never a division by
zero: the slew value used after the fallback is strictly positive, so the
timeout is well defined and always at least base_timeout + 2. -/
theorem C10_slew_positive_timeout_bounded :
    (∀ r : Option ℚ, 0 < effectiveSlew r) ∧
    ∀ (base target last : ℚ) (r : Option ℚ),
      base + 2 ≤ dynTimeout base target last (effectiveSlew r) := by
  refine ⟨effectiveSlew_pos, fun base target last r => ?_⟩
  have h1 : 0 ≤ |target - last| / effectiveSlew r :=
    div_nonneg (abs_nonneg _) (le_of_lt (effectiveSlew_pos r))
  rw [dynTimeout]
  linarith

/-- The invocation record of the waiter is always in the step trace. -/
theorem awaitBand_mem_perStep (dev : Device) (target pre_wait_s hold_s tol base_timeout : ℚ)
    (fuel : ℕ) :
    Action.awaitBand tol target await_default_dwell await_default_stable_time
        (dynTimeout base_timeout target (dev.readback 0) (effectiveSlew dev.slewRead))
      ∈ (perStep dev target pre_wait_s hold_s tol base_timeout fuel).trace := by
  rw [perStep]
  cases h : await_in_band (fun k => dev.readback (k + 1)) target tol
      await_default_dwell await_default_stable_time
      (dynTimeout base_timeout target (dev.readback 0) (effectiveSlew dev.slewRead)) fuel with
  | success s e => simp [h]
  | timeout t g s e => simp [h]
  | outOfFuel => simp [h]

/-- C3: the dynamic timeout handed to the waiter equals
base_timeout + |target - previous readback| / slew_rate + 2.0, the safety margin
being the fixed constant 2.0; in particular timeout(5, 2, 1, 5) = 10. -/
theorem C3_dynamic_timeout (dev : Device) (target pre_wait_s hold_s tol base_timeout s : ℚ)
    (fuel : ℕ) (hs : dev.slewRead = some s) (hpos : 0 < s) :
    Action.awaitBand tol target await_default_dwell await_default_stable_time
        (base_timeout + |target - dev.readback 0| / s + 2)
      ∈ (perStep dev target pre_wait_s hold_s tol base_timeout fuel).trace
    ∧ dynTimeout 5 5 2 1 = 10 := by
  constructor
  · have he : effectiveSlew dev.slewRead = s := by
      rw [hs]; simp only [effectiveSlew, if_neg (not_le.mpr hpos)]
    have hmem := awaitBand_mem_perStep dev target pre_wait_s hold_s tol base_timeout fuel
    rwa [he, dynTimeout] at hmem
  · decide

/-- Witness for C3 at a concrete step. -/
theorem C3_dynamic_timeout_witness :
    Action.awaitBand (1/50) 5 await_default_dwell await_default_stable_time
        (5 + |5 - (2:ℚ)| / 1 + 2)
      ∈ (perStep ⟨some 1, fun _ => 2⟩ 5 3 2 (1/50) 5 1).trace
    ∧ dynTimeout 5 5 2 1 = 10 :=
  C3_dynamic_timeout ⟨some 1, fun _ => 2⟩ 5 3 2 (1/50) 5 1 1 rfl (by norm_num)

/-- C4: a failed or non-positive slew-rate read degrades to the default 0.1 and
the step continues to the waiter; in particular timeout(1, 0, fallback, 5) = 17. -/
theorem C4_slew_fallback (dev : Device) (target pre_wait_s hold_s tol base_timeout : ℚ)
    (fuel : ℕ) (h : dev.slewRead = none ∨ ∃ s, dev.slewRead = some s ∧ s ≤ 0) :
    effectiveSlew dev.slewRead = 1/10
    ∧ Action.awaitBand tol target await_default_dwell await_default_stable_time
        (base_timeout + |target - dev.readback 0| / (1/10) + 2)
        ∈ (perStep dev target pre_wait_s hold_s tol base_timeout fuel).trace
    ∧ dynTimeout 5 1 0 (1/10) = 17 := by
  have he : effectiveSlew dev.slewRead = 1/10 := by
    rcases h with h | ⟨s, hs, hneg⟩
    · rw [h]; rfl
    · rw [hs]; simp only [effectiveSlew, if_pos hneg]
  refine ⟨he, ?_, by decide⟩
  have hmem := awaitBand_mem_perStep dev target pre_wait_s hold_s tol base_timeout fuel
  rwa [he, dynTimeout] at hmem

/-- Witness for C4 at a concrete step whose slew read raises. -/
theorem C4_slew_fallback_witness :
    effectiveSlew (Device.slewRead ⟨none, fun _ => 0⟩) = 1/10
    ∧ Action.awaitBand (1/50) 1 await_default_dwell await_default_stable_time
        (5 + |1 - (0:ℚ)| / (1/10) + 2)
        ∈ (perStep ⟨none, fun _ => 0⟩ 1 3 2 (1/50) 5 1).trace
    ∧ dynTimeout 5 1 0 (1/10) = 17 :=
  C4_slew_fallback ⟨none, fun _ => 0⟩ 1 3 2 (1/50) 5 1 (Or.inl rfl)

/-- With every sample in band, the counter counts up from `k` and the loop
succeeds at sample `n`, after `n - 1` dwell sleeps. -/
theorem awaitFrom_all_in_band (read : ℕ → ℚ) (target tol dwell max_time : ℚ) (n : ℕ)
    (hdw : 0 ≤ dwell) (hin : ∀ j, |read j - target| ≤ tol)
    (hmax : ((n : ℚ) - 1) * dwell ≤ max_time) :
    ∀ c fuel k, k + (c + 1) = n → c + 1 ≤ fuel →
      awaitFrom read target tol dwell max_time n fuel k k
        = .success n (((n : ℚ) - 1) * dwell) := by
  intro c
  induction c with
  | zero =>
    intro fuel k hk hf
    obtain ⟨f, rfl⟩ : ∃ f, fuel = f + 1 := ⟨fuel - 1, by omega⟩
    have hn : n = k + 1 := by omega
    subst hn
    rw [awaitFrom]
    simp only [if_pos (hin k), if_pos (le_refl (k + 1))]
    congr 1
    push_cast
    ring
  | succ c ih =>
    intro fuel k hk hf
    obtain ⟨f, rfl⟩ : ∃ f, fuel = f + 1 := ⟨fuel - 1, by omega⟩
    rw [awaitFrom]
    simp only [if_pos (hin k)]
    rw [if_neg (show ¬ n ≤ k + 1 by omega), if_neg ?hte]
    case hte =>
      have hkn : (k : ℚ) ≤ (n : ℚ) - 1 := by
        have : (k : ℚ) + ((c : ℚ) + 2) = (n : ℚ) := by exact_mod_cast congrArg (Nat.cast : ℕ → ℚ) hk
        have hc : (0:ℚ) ≤ (c : ℚ) := by positivity
        linarith
      exact not_lt.mpr (le_trans (mul_le_mul_of_nonneg_right hkn hdw) hmax)
    exact ih f (k + 1) (by omega) (by omega)

/-- C1 (amended): the required number of consecutive in-band samples is
need = max(1, trunc(stable_time / dwell)) — the source truncates, it does not
take the ceiling; an out-of-tolerance sample resets the consecutive counter to
zero whatever its value was; and when every sampled error is within tolerance
(and max_time does not preempt, which needs (need-1)*dwell <= max_time) the
waiter returns success exactly at the sample at which the counter reaches
`need`, after (need-1)*dwell seconds of polling — within one dwell tick of
need*dwell. -/
theorem C1_need_reset_success :
    (∀ (read : ℕ → ℚ) (target tol dwell max_time : ℚ) (need fuel k ok : ℕ),
      tol < |read k - target| → 0 < need → ¬ max_time < (k : ℚ) * dwell →
      awaitFrom read target tol dwell max_time need (fuel + 1) k ok
        = awaitFrom read target tol dwell max_time need fuel (k + 1) 0)
    ∧
    (∀ (read : ℕ → ℚ) (target tol dwell stable_time max_time : ℚ) (fuel : ℕ),
      0 ≤ dwell → (∀ j, |read j - target| ≤ tol) →
      ((needOf stable_time dwell : ℚ) - 1) * dwell ≤ max_time →
      needOf stable_time dwell ≤ fuel →
      await_in_band read target tol dwell stable_time max_time fuel
        = .success (needOf stable_time dwell)
            (((needOf stable_time dwell : ℚ) - 1) * dwell)) := by
  constructor
  · intro read target tol dwell max_time need fuel k ok hout hneed hte
    rw [awaitFrom]
    simp only [if_neg (not_le.mpr hout), if_neg (show ¬ need ≤ 0 by omega), if_neg hte]
  · intro read target tol dwell stable_time max_time fuel hdw hin hmax hfuel
    have hn : 1 ≤ needOf stable_time dwell := needOf_pos stable_time dwell
    rw [await_in_band]
    exact awaitFrom_all_in_band read target tol dwell max_time _ hdw hin hmax
      (needOf stable_time dwell - 1) fuel 0 (by omega) (by omega)

/-- Witness for C1: a reset step with the counter at 2, and a full default run. -/
theorem C1_need_reset_success_witness :
    (awaitFrom (fun _ => (5:ℚ)) 0 1 1 10 3 6 0 2
      = awaitFrom (fun _ => (5:ℚ)) 0 1 1 10 3 5 1 0)
    ∧ (await_in_band (fun _ => (0:ℚ)) 0 (1/50) (1/10) (4/10) 10 10
      = .success (needOf (4/10) (1/10)) (((needOf (4/10) (1/10) : ℚ) - 1) * (1/10))) :=
  ⟨C1_need_reset_success.1 (fun _ => (5:ℚ)) 0 1 1 10 3 5 0 2 (by norm_num) (by norm_num)
      (by norm_num),
   C1_need_reset_success.2 (fun _ => (0:ℚ)) 0 (1/50) (1/10) (4/10) 10 10 (by norm_num)
      (fun j => by norm_num) (by decide) (by decide)⟩

/-- C1 counterexample: with stable_time = 1/2 and dwell = 1/5 the source requires
2 consecutive samples (truncation), not the claimed ceil-based 3: with every
sample in band the waiter returns at sample 2. -/
theorem C1_counterexample :
    needOf (1/2) (1/5) = 2 ∧ needClaimed (1/2) (1/5) = 3
    ∧ await_in_band (fun _ => (0:ℚ)) 0 1 (1/5) (1/2) 10 10 = .success 2 (1/5)
    ∧ (2 : ℕ) ≠ 3 := by
  refine ⟨by decide, ?_, by decide, by decide⟩
  have hq : ((1:ℚ)/2) / (1/5) = 5/2 := by norm_num
  have hc : ⌈(5:ℚ)/2⌉ = 3 := by
    rw [Int.ceil_eq_iff]
    constructor <;> norm_num
  rw [needClaimed, hq, hc]
  decide

/-- With every sample out of band the counter stays at zero and the loop raises
at the first sample whose elapsed time strictly exceeds max_time. -/
theorem awaitFrom_all_out (read : ℕ → ℚ) (target tol dwell max_time : ℚ) (n K : ℕ)
    (hn : 1 ≤ n) (hout : ∀ j, tol < |read j - target|)
    (hK : max_time < (K : ℚ) * dwell)
    (hbelow : ∀ j : ℕ, j < K → (j : ℚ) * dwell ≤ max_time) :
    ∀ d fuel k ok, k + d = K → d + 1 ≤ fuel →
      awaitFrom read target tol dwell max_time n fuel k ok
        = .timeout tol target (K + 1) ((K : ℚ) * dwell) := by
  intro d
  induction d with
  | zero =>
    intro fuel k ok hk hf
    obtain ⟨f, rfl⟩ : ∃ f, fuel = f + 1 := ⟨fuel - 1, by omega⟩
    obtain rfl : k = K := by omega
    rw [awaitFrom]
    simp only [if_neg (not_le.mpr (hout k)), if_neg (show ¬ n ≤ 0 by omega), if_pos hK]
  | succ d ih =>
    intro fuel k ok hk hf
    obtain ⟨f, rfl⟩ : ∃ f, fuel = f + 1 := ⟨fuel - 1, by omega⟩
    rw [awaitFrom]
    simp only [if_neg (not_le.mpr (hout k)), if_neg (show ¬ n ≤ 0 by omega),
      if_neg (not_lt.mpr (hbelow k (by omega)))]
    exact ih f (k + 1) 0 (by omega) (by omega)

/-- C5: when every sampled error exceeds the tolerance the waiter raises the
timeout at the first sample past max_time: never with elapsed time at most
max_time, and at most one dwell tick after max_time; the raised error carries
the tolerance and the target. -/
theorem C5_timeout_bounded (read : ℕ → ℚ) (target tol dwell stable_time max_time : ℚ)
    (fuel : ℕ) (hdw : 0 < dwell) (hmt : 0 ≤ max_time)
    (hout : ∀ j, tol < |read j - target|)
    (hfuel : ⌊max_time / dwell⌋.toNat + 2 ≤ fuel) :
    await_in_band read target tol dwell stable_time max_time fuel
      = .timeout tol target (⌊max_time / dwell⌋.toNat + 2)
          (((⌊max_time / dwell⌋.toNat + 1 : ℕ) : ℚ) * dwell)
    ∧ max_time < ((⌊max_time / dwell⌋.toNat + 1 : ℕ) : ℚ) * dwell
    ∧ ((⌊max_time / dwell⌋.toNat + 1 : ℕ) : ℚ) * dwell ≤ max_time + dwell := by
  have hfl : (0:ℤ) ≤ ⌊max_time / dwell⌋ := Int.floor_nonneg.mpr (by positivity)
  have hcast : ((⌊max_time / dwell⌋.toNat : ℤ) : ℚ) = ((⌊max_time / dwell⌋ : ℤ) : ℚ) := by
    exact_mod_cast congrArg (Int.cast : ℤ → ℚ) (Int.toNat_of_nonneg hfl)
  have hKq : ((⌊max_time / dwell⌋.toNat + 1 : ℕ) : ℚ) = (⌊max_time / dwell⌋ : ℚ) + 1 := by
    push_cast
    rw [show ((⌊max_time / dwell⌋.toNat : ℕ) : ℚ) = ((⌊max_time / dwell⌋.toNat : ℤ) : ℚ) by
      push_cast; ring]
    rw [hcast]
  have hK : max_time < ((⌊max_time / dwell⌋.toNat + 1 : ℕ) : ℚ) * dwell := by
    rw [hKq]
    have h1 : max_time / dwell < (⌊max_time / dwell⌋ : ℚ) + 1 := Int.lt_floor_add_one _
    calc max_time = max_time / dwell * dwell := by field_simp
      _ < ((⌊max_time / dwell⌋ : ℚ) + 1) * dwell := by
          exact mul_lt_mul_of_pos_right h1 hdw
  have hbelow : ∀ j : ℕ, j < ⌊max_time / dwell⌋.toNat + 1 → (j : ℚ) * dwell ≤ max_time := by
    intro j hj
    have hj1 : (j : ℚ) ≤ (⌊max_time / dwell⌋ : ℚ) := by
      have : (j : ℤ) ≤ ⌊max_time / dwell⌋ := by
        have := Int.toNat_of_nonneg hfl
        omega
      exact_mod_cast this
    have h2 : (⌊max_time / dwell⌋ : ℚ) ≤ max_time / dwell := Int.floor_le _
    calc (j : ℚ) * dwell ≤ max_time / dwell * dwell :=
          mul_le_mul_of_nonneg_right (le_trans hj1 h2) (le_of_lt hdw)
      _ = max_time := by field_simp
  refine ⟨?_, hK, ?_⟩
  · rw [await_in_band]
    exact awaitFrom_all_out read target tol dwell max_time _ _
      (needOf_pos stable_time dwell) hout hK hbelow
      (⌊max_time / dwell⌋.toNat + 1) fuel 0 0 (by omega) (by omega)
  · have hlast : ((⌊max_time / dwell⌋.toNat : ℕ) : ℚ) * dwell ≤ max_time :=
      hbelow _ (by omega)
    have : ((⌊max_time / dwell⌋.toNat + 1 : ℕ) : ℚ) * dwell
        = ((⌊max_time / dwell⌋.toNat : ℕ) : ℚ) * dwell + dwell := by push_cast; ring
    linarith

/-- Witness for C5 on a frozen readback. -/
theorem C5_timeout_bounded_witness :
    await_in_band (fun _ => (1:ℚ)) 0 (1/2) (1/10) (4/10) 1 13
      = .timeout (1/2) 0 (⌊(1:ℚ) / (1/10)⌋.toNat + 2)
          (((⌊(1:ℚ) / (1/10)⌋.toNat + 1 : ℕ) : ℚ) * (1/10))
    ∧ (1:ℚ) < ((⌊(1:ℚ) / (1/10)⌋.toNat + 1 : ℕ) : ℚ) * (1/10)
    ∧ ((⌊(1:ℚ) / (1/10)⌋.toNat + 1 : ℕ) : ℚ) * (1/10) ≤ 1 + 1/10 :=
  C5_timeout_bounded (fun _ => (1:ℚ)) 0 (1/2) (1/10) (4/10) 1 13 (by norm_num) (by norm_num)
    (fun j => by norm_num) (by decide)

/-- Any timeout result of the loop carries the tolerance and the target and has
elapsed time strictly greater than max_time. -/
theorem awaitFrom_timeout_inv (read : ℕ → ℚ) (target tol dwell max_time : ℚ) (need : ℕ) :
    ∀ (fuel k ok : ℕ) (t g : ℚ) (s : ℕ) (e : ℚ),
      awaitFrom read target tol dwell max_time need fuel k ok = .timeout t g s e →
      t = tol ∧ g = target ∧ max_time < e := by
  intro fuel
  induction fuel with
  | zero => intro k ok t g s e h; rw [awaitFrom] at h; exact absurd h (by simp)
  | succ fuel ih =>
    intro k ok t g s e h
    rw [awaitFrom] at h
    by_cases h1 : need ≤ if |read k - target| ≤ tol then ok + 1 else 0
    · rw [if_pos h1] at h; exact absurd h (by simp)
    · rw [if_neg h1] at h
      by_cases h2 : max_time < (k : ℚ) * dwell
      · rw [if_pos h2] at h
        injection h with ht hg hs he
        exact ⟨ht.symm, hg.symm, he ▸ h2⟩
      · rw [if_neg h2] at h
        exact ih (k + 1) _ t g s e h

/-- C9: success has priority over the timeout check — at any sample where the
counter reaches `need` the loop returns success no matter how much time has
elapsed; a timeout result is produced only at a sample where the counter is
still short of `need` and the elapsed time strictly exceeds max_time. -/
theorem C9_success_priority :
    (∀ (read : ℕ → ℚ) (target tol dwell max_time : ℚ) (need fuel k ok : ℕ),
      |read k - target| ≤ tol → need ≤ ok + 1 →
      awaitFrom read target tol dwell max_time need (fuel + 1) k ok
        = .success (k + 1) ((k : ℚ) * dwell))
    ∧
    (∀ (read : ℕ → ℚ) (target tol dwell max_time : ℚ) (need fuel k ok : ℕ)
      (t g : ℚ) (s : ℕ) (e : ℚ),
      awaitFrom read target tol dwell max_time need fuel k ok = .timeout t g s e →
      t = tol ∧ g = target ∧ max_time < e) := by
  constructor
  · intro read target tol dwell max_time need fuel k ok hin hok
    rw [awaitFrom]
    simp only [if_pos hin, if_pos hok]
  · intro read target tol dwell max_time need fuel k ok t g s e h
    exact awaitFrom_timeout_inv read target tol dwell max_time need fuel k ok t g s e h

/-- Witness for C9: success returned at a sample whose elapsed time (5) already
exceeds max_time (0), and a concrete timeout run with elapsed 1 > 0. -/
theorem C9_success_priority_witness :
    (awaitFrom (fun _ => (0:ℚ)) 0 1 1 0 1 1 5 0 = .success 6 ((5 : ℚ) * 1))
    ∧ ((1:ℚ) = 1 ∧ (0:ℚ) = 0 ∧ (0:ℚ) < 1) :=
  ⟨C9_success_priority.1 (fun _ => (0:ℚ)) 0 1 1 0 1 0 5 0 (by norm_num) (by norm_num),
   C9_success_priority.2 (fun _ => (5:ℚ)) 0 1 1 0 2 2 0 0 1 0 2 1 (by decide)⟩

/-- Length of the generated point list when at least one point is requested. -/
theorem linspace_length (a b : ℚ) (n : ℕ) (h : 1 ≤ n) : (linspace a b n).length = n := by
  rw [linspace]
  by_cases h1 : n ≤ 1
  · rw [if_pos h1]
    simp only [List.length_singleton]
    omega
  · rw [if_neg h1]
    simp [List.length_map, List.length_range]

/-- Entry `i` of the point list, in the non-degenerate case. -/
theorem linspace_getD (a b : ℚ) (n i : ℕ) (hn : 2 ≤ n) (hi : i < n) :
    (linspace a b n).getD i 0 = a + (b - a) * (i : ℚ) / ((n : ℚ) - 1) := by
  rw [linspace, if_neg (by omega)]
  rw [List.getD_eq_getElem?_getD, List.getElem?_map, List.getElem?_range hi]
  rfl

/-- C2 (amended): the sequence has length floor(|stop-start| / |step|) + 1; the
points are evenly spaced from start to stop, consecutive points differing by
(stop-start)/(npts-1); that common difference equals `step` (signed in the
direction of stop-start) exactly in the divisible case stop-start = k*step. -/
theorem C2_setpoints (start stop step : ℚ) (hs : step ≠ 0) :
    (setpointsOf start stop step).length = ⌊|stop - start| / |step|⌋.toNat + 1
    ∧ (∀ i : ℕ, i + 1 < (setpointsOf start stop step).length →
        (setpointsOf start stop step).getD (i + 1) 0
          - (setpointsOf start stop step).getD i 0
          = (stop - start) / ((npts start stop step : ℚ) - 1))
    ∧ (∀ k : ℕ, 1 ≤ k → stop - start = (k : ℚ) * step →
        ∀ i : ℕ, i + 1 < (setpointsOf start stop step).length →
          (setpointsOf start stop step).getD (i + 1) 0
            - (setpointsOf start stop step).getD i 0 = step) := by
  have hlen : (setpointsOf start stop step).length = npts start stop step :=
    linspace_length start stop _ (by rw [npts]; omega)
  have habs : pyint |(stop - start) / step| = ⌊|stop - start| / |step|⌋ := by
    rw [pyint_eq_floor (abs_nonneg _), abs_div]
  have hdiff : ∀ i : ℕ, i + 1 < (setpointsOf start stop step).length →
      (setpointsOf start stop step).getD (i + 1) 0
        - (setpointsOf start stop step).getD i 0
        = (stop - start) / ((npts start stop step : ℚ) - 1) := by
    intro i hi
    rw [hlen] at hi
    have h2 : 2 ≤ npts start stop step := by omega
    rw [setpointsOf] at *
    rw [linspace_getD start stop _ (i + 1) h2 (by omega),
        linspace_getD start stop _ i h2 (by omega)]
    have hne : ((npts start stop step : ℚ) - 1) ≠ 0 := by
      have h2q : (2 : ℚ) ≤ (npts start stop step : ℚ) := by exact_mod_cast h2
      intro hzero
      have h1 : ((npts start stop step : ℚ)) = 1 := by
        have := sub_eq_zero.mp hzero
        exact this
      linarith
    field_simp
    ring
  refine ⟨by rw [hlen, npts, habs], hdiff, ?_⟩
  intro k hk hdvd i hi
  have hnk : npts start stop step = k + 1 := by
    have hq : (stop - start) / step = (k : ℚ) := by
      rw [hdvd, mul_div_assoc, div_self hs, mul_one]
    rw [npts, hq]
    have : pyint ((k : ℚ)) = (k : ℤ) := by
      rw [pyint_eq_floor (by positivity)]
      exact_mod_cast Int.floor_natCast k
    rw [show |(k : ℚ)| = (k : ℚ) from abs_of_nonneg (by positivity), this]
    omega
  rw [hdiff i hi, hnk, hdvd]
  have hkq : ((k : ℕ) : ℚ) ≠ 0 := by
    have : (1 : ℚ) ≤ (k : ℚ) := by exact_mod_cast hk
    intro h0
    rw [h0] at this
    norm_num at this
  push_cast
  field_simp

/-- Witness for C2 at start 0, stop 1, step 2/5. -/
theorem C2_setpoints_witness :
    (setpointsOf 0 1 (2/5)).length = ⌊|(1:ℚ) - 0| / |(2/5 : ℚ)|⌋.toNat + 1
    ∧ (setpointsOf 0 1 (2/5)).getD (0 + 1) 0 - (setpointsOf 0 1 (2/5)).getD 0 0
        = (1 - 0) / ((npts 0 1 (2/5) : ℚ) - 1) :=
  ⟨(C2_setpoints 0 1 (2/5) (by norm_num)).1,
   (C2_setpoints 0 1 (2/5) (by norm_num)).2.1 0 (by decide)⟩

/-- C2 counterexample: with start 0, stop 1, step 2/5 the issued consecutive
setpoints differ by 1/2, not by the claimed step 2/5. -/
theorem C2_counterexample :
    setpointsOf 0 1 (2/5) = [0, 1/2, 1]
    ∧ (1:ℚ)/2 - 0 = 1/2 ∧ ((1:ℚ)/2 ≠ 2/5) := by
  refine ⟨by decide, by norm_num, by norm_num⟩

/-- C6 (amended): the scan invocation accepts pre_wait_s, hold_s, tol and
base_timeout, with defaults 3, 2, 0.02 and 5; dwell, stable_time and max_time
are not caller-suppliable — every waiter invocation uses the waiter defaults
dwell = 0.1 and stable_time = 0.4 and, as max_time, the per-step dynamic
timeout, not the waiter default 10. -/
theorem C6_waiter_args (dev : Device) (target pre_wait_s hold_s tol base_timeout : ℚ)
    (fuel : ℕ) :
    (ramp_default_pre_wait_s = 3 ∧ ramp_default_hold_s = 2 ∧ ramp_default_tol = 2/100
      ∧ ramp_default_base_timeout = 5 ∧ await_default_dwell = 1/10
      ∧ await_default_stable_time = 4/10 ∧ await_default_max_time = 10)
    ∧ ∀ (t g dw st mt : ℚ),
        Action.awaitBand t g dw st mt
            ∈ (perStep dev target pre_wait_s hold_s tol base_timeout fuel).trace →
        t = tol ∧ g = target ∧ dw = await_default_dwell ∧ st = await_default_stable_time
          ∧ mt = dynTimeout base_timeout target (dev.readback 0)
              (effectiveSlew dev.slewRead) := by
  refine ⟨⟨rfl, rfl, rfl, rfl, rfl, rfl, rfl⟩, ?_⟩
  intro t g dw st mt hmem
  rw [perStep] at hmem
  cases h : await_in_band (fun k => dev.readback (k + 1)) target tol
      await_default_dwell await_default_stable_time
      (dynTimeout base_timeout target (dev.readback 0) (effectiveSlew dev.slewRead)) fuel with
  | success s e =>
    rw [h] at hmem
    simp only [List.mem_append, List.mem_cons, List.not_mem_nil, or_false] at hmem
    rcases hmem with ((h1 | h1 | h1 | h1 | h1) | (h1 | h1)) <;>
      first
        | (injection h1 with e1 e2 e3 e4 e5; exact ⟨e1, e2, e3, e4, e5⟩)
        | (exact absurd h1 (by simp))
  | timeout a b s e =>
    rw [h] at hmem
    simp only [List.mem_cons, List.not_mem_nil, or_false] at hmem
    rcases hmem with (h1 | h1 | h1 | h1 | h1) <;>
      first
        | (injection h1 with e1 e2 e3 e4 e5; exact ⟨e1, e2, e3, e4, e5⟩)
        | (exact absurd h1 (by simp))
  | outOfFuel =>
    rw [h] at hmem
    simp only [List.mem_cons, List.not_mem_nil, or_false] at hmem
    rcases hmem with (h1 | h1 | h1 | h1 | h1) <;>
      first
        | (injection h1 with e1 e2 e3 e4 e5; exact ⟨e1, e2, e3, e4, e5⟩)
        | (exact absurd h1 (by simp))

/-- Witness for C6: a default-tunables step whose waiter receives dwell 0.1,
stable_time 0.4 and the dynamic timeout 8. -/
theorem C6_waiter_args_witness :
    Action.awaitBand (2/100) 1 (1/10) (4/10) 8
        ∈ (perStep ⟨some 1, fun _ => 0⟩ 1 3 2 (2/100) 5 1).trace
    ∧ ((2/100 : ℚ) = 2/100 ∧ (1:ℚ) = 1 ∧ (1/10 : ℚ) = await_default_dwell
        ∧ (4/10 : ℚ) = await_default_stable_time
        ∧ (8 : ℚ) = dynTimeout 5 1 (Device.readback ⟨some 1, fun _ => 0⟩ 0)
            (effectiveSlew (Device.slewRead ⟨some 1, fun _ => 0⟩))) :=
  ⟨by decide, (C6_waiter_args ⟨some 1, fun _ => 0⟩ 1 3 2 (2/100) 5 1).2
      (2/100) 1 (1/10) (4/10) 8 (by decide)⟩

/-- C6 counterexample: an all-defaults invocation in which the waiter is given
max_time 8, not the claimed caller default 10 — max_time (like dwell and
stable_time) is not a tunable of the scan invocation. -/
theorem C6_counterexample :
    (∃ tr e, ramp_scan (fun _ => ⟨some 1, fun _ => 0⟩) 1 1 1
        ramp_default_pre_wait_s ramp_default_hold_s ramp_default_tol
        ramp_default_base_timeout 1
        = .ran tr e
      ∧ Action.awaitBand ramp_default_tol 1 await_default_dwell
          await_default_stable_time 8 ∈ tr)
    ∧ (8 : ℚ) ≠ await_default_max_time :=
  ⟨⟨_, _, rfl, by decide⟩, by norm_num [await_default_max_time]⟩

/-- C7: a waiter timeout aborts the step — no hold sleep, no measurement
trigger — the error leaves the step unchanged and stops the scan before any
further setpoint; dually a measurement is triggered only in steps whose waiter
succeeded, and a step only ever issues its own setpoint. -/
theorem C7_failfast (devs : ℕ → Device) (dev : Device)
    (target pre_wait_s hold_s tol base_timeout : ℚ) (fuel : ℕ)
    (rest : List ℚ) (i : ℕ) (a b : ℚ) :
    ((perStep dev target pre_wait_s hold_s tol base_timeout fuel).err
        = some (.timeoutErr a b) →
      (∀ hq : ℚ,
        Action.sleepHold hq ∉ (perStep dev target pre_wait_s hold_s tol base_timeout fuel).trace)
      ∧ Action.trigger ∉ (perStep dev target pre_wait_s hold_s tol base_timeout fuel).trace)
    ∧ ((perStep (devs i) target pre_wait_s hold_s tol base_timeout fuel).err
        = some (.timeoutErr a b) →
      runScanFrom devs pre_wait_s hold_s tol base_timeout fuel (target :: rest) i
        = ((perStep (devs i) target pre_wait_s hold_s tol base_timeout fuel).trace,
            some (.timeoutErr a b)))
    ∧ (Action.trigger ∈ (perStep dev target pre_wait_s hold_s tol base_timeout fuel).trace →
      (perStep dev target pre_wait_s hold_s tol base_timeout fuel).err = none)
    ∧ (∀ x : ℚ,
        Action.movePoint x ∈ (perStep dev target pre_wait_s hold_s tol base_timeout fuel).trace →
        x = target) := by
  refine ⟨?_, ?_, ?_, ?_⟩
  · intro herr
    cases h : await_in_band (fun k => dev.readback (k + 1)) target tol
        await_default_dwell await_default_stable_time
        (dynTimeout base_timeout target (dev.readback 0) (effectiveSlew dev.slewRead)) fuel with
    | success s e =>
      rw [perStep, h] at herr
      exact absurd herr (by simp)
    | timeout t g s e =>
      constructor
      · intro hq
        rw [perStep, h]
        simp
      · rw [perStep, h]
        simp
    | outOfFuel =>
      rw [perStep, h] at herr
      exact absurd herr (by simp)
  · intro herr
    rw [runScanFrom]
    rw [herr]
  · intro htr
    cases h : await_in_band (fun k => dev.readback (k + 1)) target tol
        await_default_dwell await_default_stable_time
        (dynTimeout base_timeout target (dev.readback 0) (effectiveSlew dev.slewRead)) fuel with
    | success s e =>
      rw [perStep, h]
    | timeout t g s e =>
      rw [perStep, h] at htr
      exact absurd htr (by simp)
    | outOfFuel =>
      rw [perStep, h] at htr
      exact absurd htr (by simp)
  · intro x hx
    cases h : await_in_band (fun k => dev.readback (k + 1)) target tol
        await_default_dwell await_default_stable_time
        (dynTimeout base_timeout target (dev.readback 0) (effectiveSlew dev.slewRead)) fuel with
    | success s e =>
      rw [perStep, h] at hx
      simp at hx
      exact hx
    | timeout t g s e =>
      rw [perStep, h] at hx
      simp at hx
      exact hx
    | outOfFuel =>
      rw [perStep, h] at hx
      simp at hx
      exact hx

/-- Witness for C7 on a step that times out. -/
theorem C7_failfast_witness :
    (Action.trigger ∉ (perStep ⟨some 1, fun _ => 0⟩ 1 0 0 (1/50) (-3) 2).trace)
    ∧ runScanFrom (fun _ => ⟨some 1, fun _ => 0⟩) 0 0 (1/50) (-3) 2 (1 :: [2]) 0
        = ((perStep ⟨some 1, fun _ => 0⟩ 1 0 0 (1/50) (-3) 2).trace,
            some (.timeoutErr (1/50) 1)) :=
  ⟨((C7_failfast (fun _ => ⟨some 1, fun _ => 0⟩) ⟨some 1, fun _ => 0⟩ 1 0 0 (1/50) (-3) 2
      [2] 0 (1/50) 1).1 (by decide)).2,
   (C7_failfast (fun _ => ⟨some 1, fun _ => 0⟩) ⟨some 1, fun _ => 0⟩ 1 0 0 (1/50) (-3) 2
      [2] 0 (1/50) 1).2.1 (by decide)⟩

/-- C8 (amended): a zero step size makes the npts computation fail before any
device I/O — the scan performs no power-on, no write and no read. -/
theorem C8_zero_step_rejected (devs : ℕ → Device)
    (start stop pre_wait_s hold_s tol base_timeout : ℚ) (fuel : ℕ) :
    ramp_scan devs start stop 0 pre_wait_s hold_s tol base_timeout fuel = .configError := by
  rw [ramp_scan, if_pos rfl]

/-- C8 counterexample: a non-positive tolerance is not validated — the scan
with tol = -1 still powers the device on and reads it. -/
theorem C8_counterexample :
    ∃ tr e, ramp_scan (fun _ => ⟨some 1, fun _ => 0⟩) 0 0 1 0 0 (-1) 0 25 = .ran tr e
      ∧ Action.powerOn ∈ tr ∧ Action.readCur ∈ tr :=
  ⟨_, _, rfl, by decide, by decide⟩

end Epics
